import Mathlib

/-!
Verification of the validation-and-reconciliation pipeline of
`src/lambda.py` (Enterprise Sales Data Pipeline).

The Python source is shallowly embedded: a pandas `DataFrame` becomes a
list of rows, each row an association list from column name to `Value`;
`validate_data`, the snapshot merge inside `update_rds_tables`
(concat + `drop_duplicates(subset=['uuid'], keep='last')`), the
per-country `groupby` aggregation, and the `lambda_handler` control flow
become Lean functions over this representation, with external
collaborators (S3, RDS writes, SNS) modelled by an environment recording
each collaborator call's outcome.
-/

/-- A cell value: a plain string, a numeric value (pandas numeric dtype,
modelled exactly by `Rat`), or a parsed datetime (result of
`pd.to_datetime`). -/
inductive Value where
  | str (s : String)
  | num (q : Rat)
  | date (y m d : Nat)
  deriving DecidableEq, Repr

/-- A row of a DataFrame: an association list from column name to value. -/
abbrev Row := List (String × Value)

/-- A DataFrame: its column names and its rows in order. -/
structure DataFrame where
  cols : List String
  rows : List Row
  deriving DecidableEq, Repr

/-- Cell access `row[col]`: first entry with the given column name. -/
def rowGet (r : Row) (c : String) : Option Value :=
  match r with
  | [] => none
  | (k, v) :: rest => if k = c then some v else rowGet rest c

/-- In-place cell update `df.at[row, col] = v` restricted to one row:
rewrites every entry carrying the column name. -/
def rowSet (r : Row) (c : String) (v : Value) : Row :=
  r.map (fun p => if p.1 = c then (p.1, v) else p)

/-- `col in df.columns`. -/
def hasCol (df : DataFrame) (c : String) : Prop := c ∈ df.cols

instance (df : DataFrame) (c : String) : Decidable (hasCol df c) := by
  unfold hasCol; infer_instance

/-- `pd.api.types.is_numeric_dtype(df[col])`: the column holds numeric
values in every row (how pandas infers a numeric dtype for an ingested
column). -/
def isNumericCol (df : DataFrame) (c : String) : Bool :=
  df.rows.all (fun r =>
    match rowGet r c with
    | some (Value.num _) => true
    | _ => false)

/-- Split a character list at every slash (the separator structure of the
`%m/%d/%Y` format). -/
def splitSlash : List Char → List (List Char)
  | [] => [[]]
  | c :: cs =>
    if c = '/' then [] :: splitSlash cs
    else
      match splitSlash cs with
      | [] => [[c]]
      | g :: gs => (c :: g) :: gs

/-- A nonempty all-digit character group read as a number. -/
def digitsToNat (l : List Char) : Option Nat :=
  if l ≠ [] ∧ l.all Char.isDigit then
    some (l.foldl (fun n c => n * 10 + (c.toNat - 48)) 0)
  else none

/-- One value parsed under `pd.to_datetime(..., format='%m/%d/%Y')`:
a slash-separated `month/day/year` digit string with a plausible month,
day and four-digit year (already-parsed datetimes pass through). -/
def parseDate (v : Value) : Option Value :=
  match v with
  | Value.str s =>
    match splitSlash s.toList with
    | [ms, ds, ys] =>
      match digitsToNat ms, digitsToNat ds, digitsToNat ys with
      | some m, some d, some y =>
        if 1 ≤ m ∧ m ≤ 12 ∧ 1 ≤ d ∧ d ≤ 31 ∧ ys.length = 4 then
          some (Value.date y m d)
        else none
      | _, _, _ => none
    | _ => none
  | Value.date y m d => some (Value.date y m d)
  | Value.num _ => none

/-- `df[col] = pd.to_datetime(df[col], format='%m/%d/%Y')`: succeeds and
rewrites the whole column in place only when every value parses; raises
(returns `none`) if any value fails. -/
def to_datetime (df : DataFrame) (c : String) : Option DataFrame :=
  match df.rows.mapM (fun r =>
      match rowGet r c with
      | some v => (parseDate v).map (fun w => rowSet r c w)
      | none => none) with
  | some rs => some ⟨df.cols, rs⟩
  | none => none

/-- A validation defect, one constructor per distinct message format the
source appends to its `errors` list. -/
inductive Defect where
  | missingColumns (cols : List String)
  | nonNumeric (col : String)
  | invalidDate (col : String)
  | duplicateUuids
  deriving DecidableEq, Repr

/-- The human-readable defect string the source builds. -/
def Defect.render : Defect → String
  | Defect.missingColumns cols => "Missing columns: " ++ String.intercalate ", " cols
  | Defect.nonNumeric col => "Non-numeric values in " ++ col
  | Defect.invalidDate col => "Invalid date format in " ++ col
  | Defect.duplicateUuids => "Duplicate UUIDs found"

def required_columns : List String :=
  ["uuid", "Country", "ItemType", "SalesChannel", "OrderPriority",
   "OrderDate", "Region", "ShipDate", "UnitsSold", "UnitPrice",
   "UnitCost", "TotalRevenue", "TotalCost", "TotalProfit"]

def numeric_cols : List String :=
  ["UnitsSold", "UnitPrice", "UnitCost", "TotalRevenue", "TotalCost", "TotalProfit"]

def date_cols : List String := ["OrderDate", "ShipDate"]

/-- `df[col].duplicated().any()` on the uuid column. -/
def hasDup : List (Option Value) → Bool
  | [] => false
  | a :: l => decide (a ∈ l) || hasDup l

/-- One iteration of the source's date-column loop: if the column exists,
try `pd.to_datetime`; on success the column is rewritten in place, on
failure a defect is appended. -/
def checkDateCol (acc : List Defect × DataFrame) (c : String) : List Defect × DataFrame :=
  if hasCol acc.2 c then
    match to_datetime acc.2 c with
    | some d2 => (acc.1, d2)
    | none => (acc.1 ++ [Defect.invalidDate c], acc.2)
  else acc

/-- `validate_data(df)`: returns the defect list and the (possibly
date-rewritten) DataFrame, mirroring the source's in-place mutation. -/
def validate_data (df : DataFrame) : List Defect × DataFrame :=
  let missing_cols := required_columns.filter (fun c => !(decide (hasCol df c)))
  let errors : List Defect :=
    if missing_cols.isEmpty then [] else [Defect.missingColumns missing_cols]
  let errors := errors ++
    (numeric_cols.filter (fun c => decide (hasCol df c) && !(isNumericCol df c))).map
      Defect.nonNumeric
  let acc := date_cols.foldl checkDateCol (errors, df)
  let errors :=
    if decide (hasCol acc.2 "uuid") && hasDup (acc.2.rows.map (fun r => rowGet r "uuid"))
    then acc.1 ++ [Defect.duplicateUuids] else acc.1
  (errors, acc.2)


/-! ## Snapshot reconciler: the sales_tgt branch of `update_rds_tables` -/

/-- A row's identifier: its uuid cell. -/
def keyOf (r : Row) : Option Value := rowGet r "uuid"

/-- The identifiers of a row list, in order. -/
def rowKeys (l : List Row) : List (Option Value) := l.map keyOf

/-- `drop_duplicates(subset=['uuid'], keep='last')`: keeps, in order,
exactly the rows with no later row carrying the same uuid. -/
def drop_duplicates_keep_last : List Row → List Row
  | [] => []
  | r :: rs =>
    if keyOf r ∈ rowKeys rs then drop_duplicates_keep_last rs
    else r :: drop_duplicates_keep_last rs

/-- The sales_tgt merge of `update_rds_tables`: `existing = none` models
the `except` branch that replaces an unreadable or absent table by an
empty frame; then existing rows are concatenated before incoming rows and
deduplicated by uuid keeping the last occurrence. -/
def reconcile (existing : Option (List Row)) (batch : List Row) : List Row :=
  drop_duplicates_keep_last (existing.getD [] ++ batch)

/-- Snapshot lookup: the first row carrying the given identifier. -/
def getById (l : List Row) (k : Option Value) : Option Row :=
  l.find? (fun r => decide (keyOf r = k))

/-! ## Aggregator: the sales_summary branch of `update_rds_tables` -/

/-- A row's grouping key: its Country cell. -/
def countryOf (r : Row) : Option Value := rowGet r "Country"

/-- Worker for `firstDistinct`: keeps elements not already seen. -/
def firstDistinctGo {α : Type} [DecidableEq α] (seen : List α) : List α → List α
  | [] => []
  | a :: rest =>
    if a ∈ seen then firstDistinctGo seen rest
    else a :: firstDistinctGo (a :: seen) rest

/-- Distinct elements of a list, first occurrence first. -/
def firstDistinct {α : Type} [DecidableEq α] (l : List α) : List α := firstDistinctGo [] l

/-- Numeric view of a value (a cell of a numeric-dtype column). -/
def ratOf (v : Value) : Option Rat :=
  match v with
  | Value.num q => some q
  | _ => none

/-- Numeric view of one cell. -/
def colRat (r : Row) (c : String) : Option Rat := (rowGet r c).bind ratOf

/-- Maximum of a list of rationals (groups are never empty). -/
def ratMax : List Rat → Rat
  | [] => 0
  | a :: l => l.foldl max a

/-- One row of the sales_summary table. -/
structure SummaryRow where
  country : Option Value
  max_units_sold : Rat
  average_total_revenue : Rat
  average_total_cost : Rat
  average_total_profit : Rat
  deriving DecidableEq, Repr

/-- The rows of one groupby group: exact value equality on Country. -/
def groupRows (rows : List Row) (c : Option Value) : List Row :=
  rows.filter (fun r => decide (countryOf r = c))

/-- The aggregated row for one country group; `none` when a value in an
aggregated column is not numeric (pandas `agg` raises there). -/
def aggRow (rows : List Row) (c : Option Value) : Option SummaryRow :=
  let g := groupRows rows c
  match g.mapM (fun r => colRat r "UnitsSold"), g.mapM (fun r => colRat r "TotalRevenue"),
        g.mapM (fun r => colRat r "TotalCost"), g.mapM (fun r => colRat r "TotalProfit") with
  | some us, some rev, some cost, some prof =>
      some ⟨c, ratMax us, rev.sum / (rev.length : Rat),
            cost.sum / (cost.length : Rat), prof.sum / (prof.length : Rat)⟩
  | _, _, _, _ => none

/-- `df.groupby('Country').agg(max_units_sold=..., average_total_revenue=...,
average_total_cost=..., average_total_profit=...)`: one summary row per
distinct Country value of the batch. -/
def aggregate (rows : List Row) : Option (List SummaryRow) :=
  (firstDistinct (rows.map countryOf)).mapM (aggRow rows)

/-! ## Date reformatting and the warehouse step -/

/-- Zero-padded two-digit rendering used by `%m` and `%d`. -/
def pad2 (n : Nat) : String := if n < 10 then "0" ++ toString n else toString n

/-- `strftime('%Y-%m-%d')` of one datetime. -/
def isoDate (y m d : Nat) : String := toString y ++ "-" ++ pad2 m ++ "-" ++ pad2 d

/-- `df[col] = df[col].dt.strftime('%Y-%m-%d')`: defined only when every
cell of the column is a datetime (the `.dt` accessor raises otherwise). -/
def strftimeCol (df : DataFrame) (c : String) : Option DataFrame :=
  match df.rows.mapM (fun r =>
      match rowGet r c with
      | some (Value.date y m d) => some (rowSet r c (Value.str (isoDate y m d)))
      | _ => none) with
  | some rs => some ⟨df.cols, rs⟩
  | none => none

/-- The two date-to-string rewrites at the top of `update_rds_tables`. -/
def formatDates (df : DataFrame) : Except String DataFrame :=
  match strftimeCol df "OrderDate" with
  | none => Except.error "Can only use .dt accessor with datetimelike values"
  | some d1 =>
    match strftimeCol d1 "ShipDate" with
    | none => Except.error "Can only use .dt accessor with datetimelike values"
    | some d2 => Except.ok d2

/-! ## Pipeline controller -/

/-- One attempted collaborator call, in attempt order. -/
inductive Eff where
  | s3Read
  | quarantineAttempt
  | parquetPut
  | rdsRawAppend
  | rdsTgtReplace
  | rdsSummaryReplace
  | deleteRaw
  | snsPublishSuccess
  | snsPublishFailure
  deriving DecidableEq, Repr

/-- Outcomes of the external collaborators for one invocation: the parsed
trigger (`none` = malformed), the credential fetch, the S3 read, and the
success or failure of each write-side call. -/
structure Env where
  event : Option (String × String)
  secretsRes : Except String String
  readRes : Except String DataFrame
  quarantineRes : Except String Unit
  parquetRes : Except String Unit
  existingTgt : Option (List Row)
  rawAppendRes : Except String Unit
  tgtReplaceRes : Except String Unit
  summaryReplaceRes : Except String Unit
  deleteRes : Except String Unit

/-- What `update_rds_tables` wrote on success: the rows appended to the
raw `sales` table, the replaced `sales_tgt` snapshot, and the replaced
`sales_summary` rows. -/
structure RdsOutcome where
  rawAppended : List Row
  newSnapshot : List Row
  summary : List SummaryRow

/-- `update_rds_tables(df, credentials)`: converts the two date columns to
strings, appends the batch to `sales`, merges into `sales_tgt`
(concat + drop_duplicates keep-last), recomputes `sales_summary` from the
batch alone; any raised error is wrapped as "RDS update failed: ...". -/
def update_rds_tables (env : Env) (df : DataFrame) : List Eff × Except String RdsOutcome :=
  match formatDates df with
  | Except.error e => ([], Except.error ("RDS update failed: " ++ e))
  | Except.ok df2 =>
    match env.rawAppendRes with
    | Except.error e => ([Eff.rdsRawAppend], Except.error ("RDS update failed: " ++ e))
    | Except.ok _ =>
      match env.tgtReplaceRes with
      | Except.error e =>
          ([Eff.rdsRawAppend, Eff.rdsTgtReplace], Except.error ("RDS update failed: " ++ e))
      | Except.ok _ =>
        match aggregate df2.rows with
        | none =>
            ([Eff.rdsRawAppend, Eff.rdsTgtReplace],
             Except.error "RDS update failed: aggregation error")
        | some summary =>
          match env.summaryReplaceRes with
          | Except.error e =>
              ([Eff.rdsRawAppend, Eff.rdsTgtReplace, Eff.rdsSummaryReplace],
               Except.error ("RDS update failed: " ++ e))
          | Except.ok _ =>
              ([Eff.rdsRawAppend, Eff.rdsTgtReplace, Eff.rdsSummaryReplace],
               Except.ok ⟨df2.rows, reconcile env.existingTgt df2.rows, summary⟩)

/-- Final result of `lambda_handler`: the three returned dictionaries. -/
inductive HandlerResult where
  | success
  | failedReason (reason : List Defect)
  | failedError (error : String)
  deriving DecidableEq, Repr

/-- `move_to_quarantine`: the relocation is attempted; any exception is
logged and swallowed, so nothing of its outcome reaches the caller. -/
def move_to_quarantine (_env : Env) : List Eff := [Eff.quarantineAttempt]

/-- `lambda_handler`: trigger parsing and credential fetch re-raise on
failure; the main phase is one try/except returning a structured result
and recording the collaborator calls attempted, in order. -/
def lambda_handler (env : Env) : Except String (HandlerResult × List Eff) :=
  match env.event with
  | none => Except.error "Malformed event structure"
  | some _ =>
    match env.secretsRes with
    | Except.error _ => Except.error "Failed to retrieve database credentials"
    | Except.ok _ =>
      match env.readRes with
      | Except.error e =>
          Except.ok (HandlerResult.failedError ("Error reading file from S3: " ++ e),
                     [Eff.s3Read, Eff.snsPublishFailure])
      | Except.ok raw_df =>
        let v := validate_data raw_df
        if v.1 ≠ [] then
          Except.ok (HandlerResult.failedReason v.1, [Eff.s3Read] ++ move_to_quarantine env)
        else
          match env.parquetRes with
          | Except.error e =>
              Except.ok (HandlerResult.failedError ("Parquet conversion failed: " ++ e),
                         [Eff.s3Read, Eff.parquetPut, Eff.snsPublishFailure])
          | Except.ok _ =>
            let rds := update_rds_tables env v.2
            match rds.2 with
            | Except.error e =>
                Except.ok (HandlerResult.failedError e,
                           [Eff.s3Read, Eff.parquetPut] ++ rds.1 ++ [Eff.snsPublishFailure])
            | Except.ok _ =>
                Except.ok (HandlerResult.success,
                           [Eff.s3Read, Eff.parquetPut] ++ rds.1 ++
                             [Eff.deleteRaw, Eff.snsPublishSuccess])

/-- A concrete two-row batch that passes every validator check, used to
exercise the theorems on explicit inputs. -/
def sampleBatch : DataFrame :=
  ⟨required_columns,
   [[("uuid", Value.str "id1"), ("Country", Value.str "US"), ("ItemType", Value.str "Fruit"),
     ("SalesChannel", Value.str "Online"), ("OrderPriority", Value.str "H"),
     ("OrderDate", Value.str "04/15/2025"), ("Region", Value.str "NA"),
     ("ShipDate", Value.str "05/01/2025"), ("UnitsSold", Value.num 5),
     ("UnitPrice", Value.num 3), ("UnitCost", Value.num 2), ("TotalRevenue", Value.num 15),
     ("TotalCost", Value.num 10), ("TotalProfit", Value.num 5)],
    [("uuid", Value.str "id2"), ("Country", Value.str "FR"), ("ItemType", Value.str "Fruit"),
     ("SalesChannel", Value.str "Online"), ("OrderPriority", Value.str "L"),
     ("OrderDate", Value.str "04/16/2025"), ("Region", Value.str "EU"),
     ("ShipDate", Value.str "05/02/2025"), ("UnitsSold", Value.num 9),
     ("UnitPrice", Value.num 4), ("UnitCost", Value.num 2), ("TotalRevenue", Value.num 36),
     ("TotalCost", Value.num 18), ("TotalProfit", Value.num 18)]]⟩

/-- The concrete valid batch after validation and date-to-string
reformatting: both date columns rendered as ISO date strings. -/
def df3L : DataFrame :=
  ⟨required_columns,
   [[("uuid", Value.str "id1"), ("Country", Value.str "US"), ("ItemType", Value.str "Fruit"),
     ("SalesChannel", Value.str "Online"), ("OrderPriority", Value.str "H"),
     ("OrderDate", Value.str "2025-04-15"), ("Region", Value.str "NA"),
     ("ShipDate", Value.str "2025-05-01"), ("UnitsSold", Value.num 5),
     ("UnitPrice", Value.num 3), ("UnitCost", Value.num 2), ("TotalRevenue", Value.num 15),
     ("TotalCost", Value.num 10), ("TotalProfit", Value.num 5)],
    [("uuid", Value.str "id2"), ("Country", Value.str "FR"), ("ItemType", Value.str "Fruit"),
     ("SalesChannel", Value.str "Online"), ("OrderPriority", Value.str "L"),
     ("OrderDate", Value.str "2025-04-16"), ("Region", Value.str "EU"),
     ("ShipDate", Value.str "2025-05-02"), ("UnitsSold", Value.num 9),
     ("UnitPrice", Value.num 4), ("UnitCost", Value.num 2), ("TotalRevenue", Value.num 36),
     ("TotalCost", Value.num 18), ("TotalProfit", Value.num 18)]]⟩

/-- An environment where every collaborator call succeeds and no previous
snapshot exists. -/
def envAllOk : Env :=
  ⟨some ("b", "data.csv"), Except.ok "s", Except.ok sampleBatch, Except.ok (), Except.ok (),
   none, Except.ok (), Except.ok (), Except.ok (), Except.ok ()⟩

/-! ## Characterization of the validator's defect list -/

/-- The absent required columns, in required-column order. -/
def missingColsOf (df : DataFrame) : List String :=
  required_columns.filter (fun c => !(decide (hasCol df c)))

/-- The missing-columns segment of the defect list. -/
def missingDefects (df : DataFrame) : List Defect :=
  if (missingColsOf df).isEmpty then [] else [Defect.missingColumns (missingColsOf df)]

/-- The numeric-typing segment of the defect list. -/
def numericDefects (df : DataFrame) : List Defect :=
  (numeric_cols.filter (fun c => decide (hasCol df c) && !(isNumericCol df c))).map
    Defect.nonNumeric

/-- The defects one date-column iteration contributes. -/
def dateErrsOf (df : DataFrame) (c : String) : List Defect :=
  if hasCol df c then
    match to_datetime df c with
    | some _ => []
    | none => [Defect.invalidDate c]
  else []

/-- The DataFrame one date-column iteration leaves behind. -/
def dateDfOf (df : DataFrame) (c : String) : DataFrame :=
  if hasCol df c then
    match to_datetime df c with
    | some d2 => d2
    | none => df
  else df

/-- The DataFrame after both date-column iterations: what `validate_data`
returns alongside its defects. -/
def finalDf (df : DataFrame) : DataFrame := dateDfOf (dateDfOf df "OrderDate") "ShipDate"

/-- The uuid-uniqueness segment of the defect list. -/
def uuidDefects (df : DataFrame) : List Defect :=
  if decide (hasCol (finalDf df) "uuid") &&
      hasDup ((finalDf df).rows.map (fun r => rowGet r "uuid")) then
    [Defect.duplicateUuids]
  else []

/-! ## Lemmas about the keep-last deduplication -/

theorem rowKeys_append (xs ys : List Row) : rowKeys (xs ++ ys) = rowKeys xs ++ rowKeys ys :=
  List.map_append keyOf xs ys

theorem ddkl_cons_of_mem {a : Row} {l : List Row} (h : keyOf a ∈ rowKeys l) :
    drop_duplicates_keep_last (a :: l) = drop_duplicates_keep_last l := by
  simp [drop_duplicates_keep_last, h]

theorem ddkl_cons_of_not_mem {a : Row} {l : List Row} (h : keyOf a ∉ rowKeys l) :
    drop_duplicates_keep_last (a :: l) = a :: drop_duplicates_keep_last l := by
  simp [drop_duplicates_keep_last, h]

theorem mem_of_mem_ddkl {r : Row} : ∀ {l : List Row}, r ∈ drop_duplicates_keep_last l → r ∈ l := by
  intro l
  induction l with
  | nil => intro h; exact absurd h (by simp [drop_duplicates_keep_last])
  | cons a l ih =>
    intro h
    by_cases hk : keyOf a ∈ rowKeys l
    · rw [ddkl_cons_of_mem hk] at h
      exact List.mem_cons_of_mem a (ih h)
    · rw [ddkl_cons_of_not_mem hk, List.mem_cons] at h
      rcases h with h | h
      · exact h ▸ List.mem_cons_self a l
      · exact List.mem_cons_of_mem a (ih h)

theorem keys_ddkl_subset {k : Option Value} {l : List Row}
    (h : k ∈ rowKeys (drop_duplicates_keep_last l)) : k ∈ rowKeys l := by
  rcases List.mem_map.mp h with ⟨r, hr, rfl⟩
  exact List.mem_map.mpr ⟨r, mem_of_mem_ddkl hr, rfl⟩

theorem keys_ddkl_nodup : ∀ l : List Row, (rowKeys (drop_duplicates_keep_last l)).Nodup := by
  intro l
  induction l with
  | nil => simp [drop_duplicates_keep_last, rowKeys]
  | cons a l ih =>
    by_cases hk : keyOf a ∈ rowKeys l
    · rw [ddkl_cons_of_mem hk]; exact ih
    · rw [ddkl_cons_of_not_mem hk]
      rw [rowKeys, List.map_cons, List.nodup_cons]
      exact ⟨fun hmem => hk (keys_ddkl_subset hmem), ih⟩

theorem ddkl_eq_self_of_nodup : ∀ {l : List Row}, (rowKeys l).Nodup →
    drop_duplicates_keep_last l = l := by
  intro l
  induction l with
  | nil => intro _; rfl
  | cons a l ih =>
    intro h
    rw [rowKeys, List.map_cons, List.nodup_cons] at h
    rw [ddkl_cons_of_not_mem h.1]
    exact congrArg (a :: ·) (ih h.2)

theorem ddkl_append (xs ys : List Row) :
    drop_duplicates_keep_last (xs ++ ys) =
      (drop_duplicates_keep_last xs).filter (fun r => decide (keyOf r ∉ rowKeys ys)) ++
        drop_duplicates_keep_last ys := by
  induction xs with
  | nil => simp [drop_duplicates_keep_last]
  | cons a xs ih =>
    rw [List.cons_append]
    by_cases h1 : keyOf a ∈ rowKeys xs
    · have h1' : keyOf a ∈ rowKeys (xs ++ ys) := by
        rw [rowKeys_append]; exact List.mem_append_left _ h1
      rw [ddkl_cons_of_mem h1', ddkl_cons_of_mem h1, ih]
    · by_cases h2 : keyOf a ∈ rowKeys ys
      · have h1' : keyOf a ∈ rowKeys (xs ++ ys) := by
          rw [rowKeys_append]; exact List.mem_append_right _ h2
        rw [ddkl_cons_of_mem h1', ddkl_cons_of_not_mem h1, ih, List.filter_cons]
        simp [h2]
      · have h1' : keyOf a ∉ rowKeys (xs ++ ys) := by
          rw [rowKeys_append]; simp [h1, h2]
        rw [ddkl_cons_of_not_mem h1', ddkl_cons_of_not_mem h1, ih, List.filter_cons]
        simp [h2]

theorem filter_not_in_keys_ddkl (ys : List Row) :
    (drop_duplicates_keep_last ys).filter (fun r => decide (keyOf r ∉ rowKeys ys)) = [] := by
  rw [List.filter_eq_nil_iff]
  intro r hr
  simp only [decide_eq_true_eq, Decidable.not_not]
  exact List.mem_map.mpr ⟨r, mem_of_mem_ddkl hr, rfl⟩

theorem reconcile_idem_aux (L B : List Row) :
    drop_duplicates_keep_last (drop_duplicates_keep_last (L ++ B) ++ B) =
      drop_duplicates_keep_last (L ++ B) := by
  rw [ddkl_append (drop_duplicates_keep_last (L ++ B)) B,
    ddkl_eq_self_of_nodup (keys_ddkl_nodup (L ++ B)), ddkl_append L B, List.filter_append,
    List.filter_filter, filter_not_in_keys_ddkl, List.append_nil]
  congr 1
  apply List.filter_congr
  intro r _
  simp

theorem getById_cons_self {a : Row} {l : List Row} {k : Option Value} (h : keyOf a = k) :
    getById (a :: l) k = some a := by
  unfold getById
  rw [List.find?_cons_of_pos]
  simp [h]

theorem getById_cons_of_ne {a : Row} {l : List Row} {k : Option Value} (h : keyOf a ≠ k) :
    getById (a :: l) k = getById l k := by
  unfold getById
  rw [List.find?_cons_of_neg]
  simp [h]

theorem getById_of_mem_nodup {l : List Row} {r : Row} {k : Option Value}
    (hn : (rowKeys l).Nodup) (hr : r ∈ l) (hk : keyOf r = k) : getById l k = some r := by
  induction l with
  | nil => cases hr
  | cons a l ih =>
    rw [rowKeys, List.map_cons, List.nodup_cons] at hn
    rcases List.mem_cons.mp hr with rfl | hmem
    · exact getById_cons_self hk
    · have hne : keyOf a ≠ k := by
        intro he
        apply hn.1
        rw [he, ← hk]
        exact List.mem_map.mpr ⟨r, hmem, rfl⟩
      rw [getById_cons_of_ne hne]
      exact ih hn.2 hmem

theorem getById_append_of_some {l₁ l₂ : List Row} {k : Option Value} {r : Row}
    (h : getById l₁ k = some r) : getById (l₁ ++ l₂) k = some r := by
  unfold getById at h ⊢
  rw [List.find?_append, h]
  rfl

theorem getById_append_of_none {l₁ : List Row} {k : Option Value}
    (h : ∀ r ∈ l₁, keyOf r ≠ k) (l₂ : List Row) :
    getById (l₁ ++ l₂) k = getById l₂ k := by
  unfold getById
  have h1 : (l₁.find? fun r => decide (keyOf r = k)) = none :=
    List.find?_eq_none.mpr (by intro r hr; simp [h r hr])
  rw [List.find?_append, h1, Option.none_or]

theorem rowKeys_filter_sublist (p : Row → Bool) (l : List Row) :
    (rowKeys (l.filter p)).Sublist (rowKeys l) :=
  (List.filter_sublist l).map keyOf

/-- C1: after the merge, an identifier shared by the snapshot and the
batch maps to the batch's record (last-write-wins by processing order),
and an identifier held by only one side keeps its unique record. -/
theorem reconcile_lookup (S B : List Row) (k : Option Value)
    (hS : (rowKeys S).Nodup) (hB : (rowKeys B).Nodup) :
    (∀ rB ∈ B, keyOf rB = k → getById (reconcile (some S) B) k = some rB) ∧
    (k ∉ rowKeys B → ∀ rS ∈ S, keyOf rS = k → getById (reconcile (some S) B) k = some rS) := by
  have hrec : reconcile (some S) B =
      S.filter (fun r => decide (keyOf r ∉ rowKeys B)) ++ B := by
    unfold reconcile
    have := ddkl_append S B
    rw [ddkl_eq_self_of_nodup hS, ddkl_eq_self_of_nodup hB] at this
    simpa using this
  constructor
  · intro rB hrB hk
    have hkB : k ∈ rowKeys B := by
      rw [← hk]
      exact List.mem_map.mpr ⟨rB, hrB, rfl⟩
    have hnone : ∀ r ∈ S.filter (fun r => decide (keyOf r ∉ rowKeys B)), keyOf r ≠ k := by
      intro r hr he
      have hp := (List.mem_filter.mp hr).2
      simp only [decide_eq_true_eq] at hp
      apply hp
      rw [he]
      exact hkB
    rw [hrec, getById_append_of_none hnone]
    exact getById_of_mem_nodup hB hrB hk
  · intro hkB rS hrS hk
    have hmemf : rS ∈ S.filter (fun r => decide (keyOf r ∉ rowKeys B)) :=
      List.mem_filter.mpr ⟨hrS, by simp [hk, hkB]⟩
    have hnf : (rowKeys (S.filter (fun r => decide (keyOf r ∉ rowKeys B)))).Nodup :=
      List.Nodup.sublist (rowKeys_filter_sublist _ S) hS
    rw [hrec]
    exact getById_append_of_some (getById_of_mem_nodup hnf hmemf hk)

/-- Witness for C1 on a concrete snapshot and batch: id "x" collides and
takes the batch's record, id "z" only in the snapshot keeps its record,
id "y" only in the batch keeps its record. -/
theorem reconcile_lookup_witness :
    getById
        (reconcile (some [[("uuid", Value.str "x"), ("UnitsSold", Value.num 1)],
                          [("uuid", Value.str "z"), ("UnitsSold", Value.num 3)]])
          [[("uuid", Value.str "x"), ("UnitsSold", Value.num 2)],
           [("uuid", Value.str "y"), ("UnitsSold", Value.num 4)]])
        (some (Value.str "x")) =
      some [("uuid", Value.str "x"), ("UnitsSold", Value.num 2)] ∧
    getById
        (reconcile (some [[("uuid", Value.str "x"), ("UnitsSold", Value.num 1)],
                          [("uuid", Value.str "z"), ("UnitsSold", Value.num 3)]])
          [[("uuid", Value.str "x"), ("UnitsSold", Value.num 2)],
           [("uuid", Value.str "y"), ("UnitsSold", Value.num 4)]])
        (some (Value.str "z")) =
      some [("uuid", Value.str "z"), ("UnitsSold", Value.num 3)] ∧
    getById
        (reconcile (some [[("uuid", Value.str "x"), ("UnitsSold", Value.num 1)],
                          [("uuid", Value.str "z"), ("UnitsSold", Value.num 3)]])
          [[("uuid", Value.str "x"), ("UnitsSold", Value.num 2)],
           [("uuid", Value.str "y"), ("UnitsSold", Value.num 4)]])
        (some (Value.str "y")) =
      some [("uuid", Value.str "y"), ("UnitsSold", Value.num 4)] :=
  ⟨(reconcile_lookup _ _ _ (by decide) (by decide)).1 _ (by decide) (by decide),
   (reconcile_lookup _ _ _ (by decide) (by decide)).2 (by decide) _ (by decide) (by decide),
   (reconcile_lookup _ _ _ (by decide) (by decide)).1 _ (by decide) (by decide)⟩

/-- C2: reconciliation is idempotent for a fixed batch: merging the same
batch into the snapshot it already produced yields that same snapshot. -/
theorem reconcile_idempotent (S : Option (List Row)) (B : List Row) :
    reconcile (some (reconcile S B)) B = reconcile S B := by
  unfold reconcile
  simpa using reconcile_idem_aux (S.getD []) B

/-- C3: an absent or unreadable existing snapshot is treated as empty and
the merge does not fail: it returns the batch deduplicated by identifier,
which is the batch itself when its identifiers are unique (as the
validator guarantees). -/
theorem reconcile_empty_snapshot (B : List Row) :
    reconcile none B = drop_duplicates_keep_last B ∧
      ((rowKeys B).Nodup → reconcile none B = B) := by
  constructor
  · rfl
  · intro h
    exact ddkl_eq_self_of_nodup h

/-- Witness for C3 on a concrete two-row batch with unique identifiers. -/
theorem reconcile_empty_snapshot_witness :
    reconcile none [[("uuid", Value.str "a"), ("UnitsSold", Value.num 5)],
                    [("uuid", Value.str "b"), ("UnitsSold", Value.num 7)]] =
      [[("uuid", Value.str "a"), ("UnitsSold", Value.num 5)],
       [("uuid", Value.str "b"), ("UnitsSold", Value.num 7)]] :=
  (reconcile_empty_snapshot _).2 (by decide)

theorem checkDateCol_eq (e : List Defect) (d : DataFrame) (c : String) :
    checkDateCol (e, d) c = (e ++ dateErrsOf d c, dateDfOf d c) := by
  unfold checkDateCol dateErrsOf dateDfOf
  by_cases h : hasCol d c
  · simp only [if_pos h]
    cases to_datetime d c <;> simp
  · simp [if_neg h]

theorem validate_data_eq (df : DataFrame) :
    validate_data df =
      (missingDefects df ++ numericDefects df ++ dateErrsOf df "OrderDate" ++
         dateErrsOf (dateDfOf df "OrderDate") "ShipDate" ++ uuidDefects df,
       finalDf df) := by
  unfold validate_data missingDefects missingColsOf numericDefects uuidDefects finalDf
  simp only [date_cols, List.foldl_cons, List.foldl_nil, checkDateCol_eq]
  by_cases hu : decide (hasCol (dateDfOf (dateDfOf df "OrderDate") "ShipDate") "uuid") &&
      hasDup ((dateDfOf (dateDfOf df "OrderDate") "ShipDate").rows.map (fun r => rowGet r "uuid"))
  · simp [hu, List.append_assoc]
  · simp [hu, List.append_assoc]

theorem mem_dateErrsOf {x : Defect} {d : DataFrame} {c : String} (h : x ∈ dateErrsOf d c) :
    x = Defect.invalidDate c ∧ hasCol d c := by
  unfold dateErrsOf at h
  by_cases hc : hasCol d c
  · rw [if_pos hc] at h
    rcases he : to_datetime d c with _ | d2 <;> rw [he] at h <;> simp_all
  · rw [if_neg hc] at h
    cases h

theorem mem_uuidDefects {x : Defect} {df : DataFrame} (h : x ∈ uuidDefects df) :
    x = Defect.duplicateUuids := by
  unfold uuidDefects at h
  split at h <;> simp_all

theorem mem_missingDefects {x : Defect} {df : DataFrame} (h : x ∈ missingDefects df) :
    x = Defect.missingColumns (missingColsOf df) := by
  unfold missingDefects at h
  split at h <;> simp_all

theorem mem_numericDefects {x : Defect} {df : DataFrame} (h : x ∈ numericDefects df) :
    ∃ c, x = Defect.nonNumeric c ∧ hasCol df c ∧ isNumericCol df c = false := by
  unfold numericDefects at h
  rcases List.mem_map.mp h with ⟨c, hc, rfl⟩
  have := (List.mem_filter.mp hc).2
  simp only [Bool.and_eq_true, decide_eq_true_eq, Bool.not_eq_true'] at this
  exact ⟨c, rfl, this.1, this.2⟩

theorem to_datetime_cols {df d2 : DataFrame} {c : String} (h : to_datetime df c = some d2) :
    d2.cols = df.cols := by
  unfold to_datetime at h
  rcases he : df.rows.mapM (fun r =>
      match rowGet r c with
      | some v => (parseDate v).map (fun w => rowSet r c w)
      | none => none) with _ | rs <;> rw [he] at h
  · cases h
  · cases h
    rfl

theorem dateDfOf_cols (df : DataFrame) (c : String) : (dateDfOf df c).cols = df.cols := by
  unfold dateDfOf
  by_cases hc : hasCol df c
  · rw [if_pos hc]
    rcases he : to_datetime df c with _ | d2
    · rfl
    · exact to_datetime_cols he
  · rw [if_neg hc]

theorem hasCol_dateDfOf {df : DataFrame} {c c' : String} (h : hasCol (dateDfOf df c') c) :
    hasCol df c := by
  unfold hasCol at h ⊢
  rwa [dateDfOf_cols] at h

/-- C5: a batch missing required columns gets exactly one missing-columns
defect, listing exactly the absent required columns, and an absent column
contributes no numeric-typing or date-parsing defect of its own. -/
theorem validate_missing_columns (df : DataFrame) (h : missingColsOf df ≠ []) :
    (validate_data df).1.count (Defect.missingColumns (missingColsOf df)) = 1 ∧
    (∀ cols, Defect.missingColumns cols ∈ (validate_data df).1 → cols = missingColsOf df) ∧
    (∀ c, c ∈ missingColsOf df ↔ c ∈ required_columns ∧ ¬ hasCol df c) ∧
    (∀ c, ¬ hasCol df c →
       Defect.nonNumeric c ∉ (validate_data df).1 ∧
       Defect.invalidDate c ∉ (validate_data df).1) := by
  have hne : ¬((missingColsOf df).isEmpty = true) := by simpa using h
  have hM : missingDefects df = [Defect.missingColumns (missingColsOf df)] := by
    unfold missingDefects
    rw [if_neg hne]
  refine ⟨?_, ?_, ?_, ?_⟩
  · rw [validate_data_eq]
    simp only [List.count_append]
    have h1 : (missingDefects df).count (Defect.missingColumns (missingColsOf df)) = 1 := by
      rw [hM, List.count_singleton_self]
    have h2 : (numericDefects df).count (Defect.missingColumns (missingColsOf df)) = 0 := by
      rw [List.count_eq_zero]
      intro hmem
      rcases mem_numericDefects hmem with ⟨c, hc, _⟩
      cases hc
    have h3 : (dateErrsOf df "OrderDate").count (Defect.missingColumns (missingColsOf df)) = 0 := by
      rw [List.count_eq_zero]
      intro hmem
      cases (mem_dateErrsOf hmem).1
    have h4 : (dateErrsOf (dateDfOf df "OrderDate") "ShipDate").count
        (Defect.missingColumns (missingColsOf df)) = 0 := by
      rw [List.count_eq_zero]
      intro hmem
      cases (mem_dateErrsOf hmem).1
    have h5 : (uuidDefects df).count (Defect.missingColumns (missingColsOf df)) = 0 := by
      rw [List.count_eq_zero]
      intro hmem
      cases mem_uuidDefects hmem
    omega
  · intro cols hmem
    rw [validate_data_eq] at hmem
    simp only [List.mem_append] at hmem
    rcases hmem with ((((hmem | hmem) | hmem) | hmem) | hmem)
    · rw [hM, List.mem_singleton] at hmem
      injection hmem
    · rcases mem_numericDefects hmem with ⟨c, hc, _⟩
      cases hc
    · cases (mem_dateErrsOf hmem).1
    · cases (mem_dateErrsOf hmem).1
    · cases mem_uuidDefects hmem
  · intro c
    unfold missingColsOf
    simp [List.mem_filter]
  · intro c hc
    constructor
    · intro hmem
      rw [validate_data_eq] at hmem
      simp only [List.mem_append] at hmem
      rcases hmem with ((((hmem | hmem) | hmem) | hmem) | hmem)
      · rw [hM, List.mem_singleton] at hmem
        cases hmem
      · rcases mem_numericDefects hmem with ⟨c', hc', hcol, _⟩
        injection hc' with h'
        exact hc (h' ▸ hcol)
      · cases (mem_dateErrsOf hmem).1
      · cases (mem_dateErrsOf hmem).1
      · cases mem_uuidDefects hmem
    · intro hmem
      rw [validate_data_eq] at hmem
      simp only [List.mem_append] at hmem
      rcases hmem with ((((hmem | hmem) | hmem) | hmem) | hmem)
      · rw [hM, List.mem_singleton] at hmem
        cases hmem
      · rcases mem_numericDefects hmem with ⟨c', hc', _, _⟩
        cases hc'
      · rcases mem_dateErrsOf hmem with ⟨heq, hcol⟩
        injection heq with h'
        exact hc (h' ▸ hcol)
      · rcases mem_dateErrsOf hmem with ⟨heq, hcol⟩
        injection heq with h'
        exact hc (h' ▸ hasCol_dateDfOf hcol)
      · cases mem_uuidDefects hmem

/-- Witness for C5: a frame with only a uuid column gets one
missing-columns defect and no numeric defect for the absent Country. -/
theorem validate_missing_columns_witness :
    (validate_data ⟨["uuid"], []⟩).1.count
        (Defect.missingColumns (missingColsOf ⟨["uuid"], []⟩)) = 1 ∧
    Defect.nonNumeric "Country" ∉ (validate_data ⟨["uuid"], []⟩).1 :=
  ⟨(validate_missing_columns _ (by decide)).1,
   ((validate_missing_columns _ (by decide)).2.2.2 "Country" (by decide)).1⟩

/-- C6: a present numeric column with any non-numeric value yields exactly
one defect naming that column; a present all-numeric column yields none. -/
theorem validate_non_numeric (df : DataFrame) (c : String) (hc : c ∈ numeric_cols) :
    (validate_data df).1.count (Defect.nonNumeric c) =
      if hasCol df c ∧ isNumericCol df c = false then 1 else 0 := by
  rw [validate_data_eq]
  simp only [List.count_append]
  have h1 : (missingDefects df).count (Defect.nonNumeric c) = 0 := by
    rw [List.count_eq_zero]
    intro hmem
    cases mem_missingDefects hmem
  have h3 : (dateErrsOf df "OrderDate").count (Defect.nonNumeric c) = 0 := by
    rw [List.count_eq_zero]
    intro hmem
    cases (mem_dateErrsOf hmem).1
  have h4 : (dateErrsOf (dateDfOf df "OrderDate") "ShipDate").count (Defect.nonNumeric c) = 0 := by
    rw [List.count_eq_zero]
    intro hmem
    cases (mem_dateErrsOf hmem).1
  have h5 : (uuidDefects df).count (Defect.nonNumeric c) = 0 := by
    rw [List.count_eq_zero]
    intro hmem
    cases mem_uuidDefects hmem
  have h2 : (numericDefects df).count (Defect.nonNumeric c) =
      if hasCol df c ∧ isNumericCol df c = false then 1 else 0 := by
    unfold numericDefects
    rw [List.count_map_of_injective _ Defect.nonNumeric (fun a b hab => by injection hab) c]
    by_cases hcond : (decide (hasCol df c) && !(isNumericCol df c)) = true
    · have hp : hasCol df c ∧ isNumericCol df c = false := by
        simpa [Bool.and_eq_true, Bool.not_eq_true'] using hcond
      rw [if_pos hp]
      exact List.count_eq_one_of_mem (List.Nodup.filter _ (by decide))
        (List.mem_filter.mpr ⟨hc, hcond⟩)
    · have hp : ¬(hasCol df c ∧ isNumericCol df c = false) := by
        simpa [Bool.and_eq_true, Bool.not_eq_true'] using hcond
      rw [if_neg hp, List.count_eq_zero]
      intro hmem
      exact hcond ((List.mem_filter.mp hmem).2)
  omega

/-- Witness for C6: one frame with a non-numeric UnitsSold (count 1) and
one with an all-numeric UnitsSold (count 0). -/
theorem validate_non_numeric_witness :
    (validate_data ⟨["UnitsSold"], [[("UnitsSold", Value.str "oops")]]⟩).1.count
        (Defect.nonNumeric "UnitsSold") = 1 ∧
    (validate_data ⟨["UnitsSold"], [[("UnitsSold", Value.num 3)]]⟩).1.count
        (Defect.nonNumeric "UnitsSold") = 0 := by
  constructor
  · rw [validate_non_numeric _ "UnitsSold" (by decide), if_pos (by decide)]
  · rw [validate_non_numeric _ "UnitsSold" (by decide), if_neg (by decide)]

/-! ## Option-mapM and cell-update helper lemmas -/

theorem mapM_option_forall2 {α β : Type} {f : α → Option β} :
    ∀ {l : List α} {l' : List β}, l.mapM f = some l' →
      List.Forall₂ (fun a b => f a = some b) l l' := by
  intro l
  induction l with
  | nil =>
    intro l' h
    rw [List.mapM_nil] at h
    cases h
    exact List.Forall₂.nil
  | cons a l ih =>
    intro l' h
    rw [List.mapM_cons] at h
    rcases hb : f a with _ | b <;> rw [hb] at h
    · cases h
    · rcases hbs : l.mapM f with _ | bs <;> rw [hbs] at h
      · cases h
      · cases h
        exact List.Forall₂.cons hb (ih hbs)

theorem mapM_option_eq_map {α β : Type} (f : α → Option β) (g : α → β) :
    ∀ (l : List α), (∀ a ∈ l, f a = some (g a)) → l.mapM f = some (l.map g) := by
  intro l
  induction l with
  | nil => intro _; rfl
  | cons a l ih =>
    intro h
    rw [List.mapM_cons, h a (List.mem_cons_self a l),
      ih (fun x hx => h x (List.mem_cons_of_mem a hx))]
    rfl

theorem mapM_option_isSome {α β : Type} {f : α → Option β} :
    ∀ {l : List α}, (∀ a ∈ l, (f a).isSome) → ∃ l', l.mapM f = some l' := by
  intro l
  induction l with
  | nil => intro _; exact ⟨[], rfl⟩
  | cons a l ih =>
    intro h
    rcases Option.isSome_iff_exists.mp (h a (List.mem_cons_self a l)) with ⟨b, hb⟩
    rcases ih (fun x hx => h x (List.mem_cons_of_mem a hx)) with ⟨bs, hbs⟩
    exact ⟨b :: bs, by rw [List.mapM_cons, hb, hbs]; rfl⟩

theorem forall2_mem_right {α β : Type} {R : α → β → Prop} {l : List α} {l' : List β}
    (h : List.Forall₂ R l l') : ∀ b ∈ l', ∃ a ∈ l, R a b := by
  induction h with
  | nil => intro b hb; cases hb
  | cons hr _ ih =>
    intro b hb
    rcases List.mem_cons.mp hb with rfl | hb
    · exact ⟨_, List.mem_cons_self _ _, hr⟩
    · rcases ih b hb with ⟨a, ha, hr'⟩
      exact ⟨a, List.mem_cons_of_mem _ ha, hr'⟩

theorem rowGet_cons (k : String) (w : Value) (r : Row) (c : String) :
    rowGet ((k, w) :: r) c = if k = c then some w else rowGet r c := rfl

theorem rowSet_cons (k : String) (w : Value) (r : Row) (c : String) (v : Value) :
    rowSet ((k, w) :: r) c v = (if k = c then (k, v) else (k, w)) :: rowSet r c v := rfl

theorem rowGet_rowSet_self {c : String} {v : Value} :
    ∀ {r : Row} {v₀ : Value}, rowGet r c = some v₀ → rowGet (rowSet r c v) c = some v := by
  intro r
  induction r with
  | nil => intro v₀ h; cases h
  | cons p r ih =>
    intro v₀ h
    rcases p with ⟨k, w⟩
    by_cases hk : k = c
    · simp [rowSet_cons, rowGet_cons, hk]
    · rw [rowGet_cons, if_neg hk] at h
      simp [rowSet_cons, rowGet_cons, hk, ih h]

theorem rowGet_rowSet_other {c c' : String} {v : Value} (hne : c' ≠ c) :
    ∀ r : Row, rowGet (rowSet r c v) c' = rowGet r c' := by
  intro r
  induction r with
  | nil => rfl
  | cons p r ih =>
    rcases p with ⟨k, w⟩
    have hcc : ¬(c = c') := fun he => hne he.symm
    by_cases hk : k = c
    · simp [rowSet_cons, rowGet_cons, hk, hcc, ih]
    · by_cases hk' : k = c'
      · simp [rowSet_cons, rowGet_cons, hk, hk', hcc, hne]
      · simp [rowSet_cons, rowGet_cons, hk, hk', ih]

/-! ## What a passing validation guarantees about the returned DataFrame -/

theorem parseDate_is_date {v w : Value} (h : parseDate v = some w) :
    ∃ y m d, w = Value.date y m d := by
  unfold parseDate at h
  repeat' split at h
  all_goals (cases h <;> exact ⟨_, _, _, rfl⟩)

theorem dtRow_eq_some {r r2 : Row} {c : String}
    (h : (match rowGet r c with
          | some v => (parseDate v).map (fun w => rowSet r c w)
          | none => none) = some r2) :
    ∃ v w, rowGet r c = some v ∧ parseDate v = some w ∧ r2 = rowSet r c w := by
  rcases hv : rowGet r c with _ | v <;> rw [hv] at h
  · cases h
  · have h' : (parseDate v).map (fun w => rowSet r c w) = some r2 := h
    rw [Option.map_eq_some'] at h'
    rcases h' with ⟨w, hw, hr2⟩
    exact ⟨v, w, rfl, hw, hr2.symm⟩

theorem to_datetime_rows {df d2 : DataFrame} {c : String} (h : to_datetime df c = some d2) :
    List.Forall₂ (fun r r2 => ∃ v w, rowGet r c = some v ∧ parseDate v = some w ∧
      r2 = rowSet r c w) df.rows d2.rows := by
  unfold to_datetime at h
  rcases he : df.rows.mapM (fun r =>
      match rowGet r c with
      | some v => (parseDate v).map (fun w => rowSet r c w)
      | none => none) with _ | rs <;> rw [he] at h
  · cases h
  · cases h
    exact (mapM_option_forall2 he).imp (fun a b hab => dtRow_eq_some hab)

theorem to_datetime_col_dates {df d2 : DataFrame} {c : String} (h : to_datetime df c = some d2) :
    ∀ r2 ∈ d2.rows, ∃ y m d, rowGet r2 c = some (Value.date y m d) := by
  intro r2 hr2
  rcases forall2_mem_right (to_datetime_rows h) r2 hr2 with ⟨r, _, v, w, hv, hw, rfl⟩
  rcases parseDate_is_date hw with ⟨y, m, d, rfl⟩
  exact ⟨y, m, d, rowGet_rowSet_self hv⟩

theorem to_datetime_other_cols {df d2 : DataFrame} {c : String} (h : to_datetime df c = some d2) :
    List.Forall₂ (fun r r2 => ∀ c', c' ≠ c → rowGet r2 c' = rowGet r c') df.rows d2.rows := by
  refine (to_datetime_rows h).imp ?_
  rintro a b ⟨v, w, hv, hw, rfl⟩ c' hc'
  exact rowGet_rowSet_other hc' a

theorem missingColsOf_eq_nil {df : DataFrame} (h : missingDefects df = []) :
    missingColsOf df = [] := by
  unfold missingDefects at h
  by_cases hc : (missingColsOf df).isEmpty = true
  · simpa using hc
  · rw [if_neg hc] at h
    cases h

theorem hasCol_of_no_missing {df : DataFrame} (h : missingColsOf df = []) {c : String}
    (hc : c ∈ required_columns) : hasCol df c := by
  unfold missingColsOf at h
  rw [List.filter_eq_nil_iff] at h
  have := h c hc
  simpa using this

theorem dateDf_of_ok {df : DataFrame} {c : String} (hc : hasCol df c)
    (h : dateErrsOf df c = []) : to_datetime df c = some (dateDfOf df c) := by
  unfold dateErrsOf at h
  unfold dateDfOf
  rw [if_pos hc] at h ⊢
  rcases he : to_datetime df c with _ | d2
  · rw [he] at h
    cases h
  · rfl

theorem validate_pass_parts {df : DataFrame} (h : (validate_data df).1 = []) :
    missingColsOf df = [] ∧ numericDefects df = [] ∧
      to_datetime df "OrderDate" = some (dateDfOf df "OrderDate") ∧
      to_datetime (dateDfOf df "OrderDate") "ShipDate" = some (finalDf df) ∧
      (validate_data df).2 = finalDf df := by
  have h' : missingDefects df ++ numericDefects df ++ dateErrsOf df "OrderDate" ++
      dateErrsOf (dateDfOf df "OrderDate") "ShipDate" ++ uuidDefects df = [] := by
    rw [validate_data_eq] at h
    exact h
  simp only [List.append_eq_nil] at h'
  obtain ⟨⟨⟨⟨hM, hN⟩, hD1⟩, hD2⟩, _⟩ := h'
  have hmiss := missingColsOf_eq_nil hM
  have hO : hasCol df "OrderDate" := hasCol_of_no_missing hmiss (by decide)
  have hS2 : hasCol (dateDfOf df "OrderDate") "ShipDate" := by
    unfold hasCol
    rw [dateDfOf_cols]
    exact hasCol_of_no_missing hmiss (by decide)
  refine ⟨hmiss, hN, dateDf_of_ok hO hD1, dateDf_of_ok hS2 hD2, ?_⟩
  rw [validate_data_eq]

theorem stRow_eq_some {r r2 : Row} {c : String}
    (h : (match rowGet r c with
          | some (Value.date y m d) => some (rowSet r c (Value.str (isoDate y m d)))
          | _ => none) = some r2) :
    ∃ y m d, rowGet r c = some (Value.date y m d) ∧
      r2 = rowSet r c (Value.str (isoDate y m d)) := by
  rcases hv : rowGet r c with _ | v <;> rw [hv] at h
  · cases h
  · rcases v with s | q | ⟨y, m, d⟩
    · have h' : (none : Option Row) = some r2 := h
      cases h'
    · have h' : (none : Option Row) = some r2 := h
      cases h'
    · have h' : some (rowSet r c (Value.str (isoDate y m d))) = some r2 := h
      cases h'
      exact ⟨y, m, d, rfl, rfl⟩

theorem strftimeCol_rows {df d2 : DataFrame} {c : String} (h : strftimeCol df c = some d2) :
    List.Forall₂ (fun r r2 => ∃ y m d, rowGet r c = some (Value.date y m d) ∧
      r2 = rowSet r c (Value.str (isoDate y m d))) df.rows d2.rows := by
  unfold strftimeCol at h
  rcases he : df.rows.mapM (fun r =>
      match rowGet r c with
      | some (Value.date y m d) => some (rowSet r c (Value.str (isoDate y m d)))
      | _ => none) with _ | rs <;> rw [he] at h
  · cases h
  · cases h
    exact (mapM_option_forall2 he).imp (fun a b hab => stRow_eq_some hab)

theorem strftimeCol_some {df : DataFrame} {c : String}
    (h : ∀ r ∈ df.rows, ∃ y m d, rowGet r c = some (Value.date y m d)) :
    ∃ d2, strftimeCol df c = some d2 := by
  have hs : ∀ r ∈ df.rows,
      ((fun r : Row =>
        match rowGet r c with
        | some (Value.date y m d) => some (rowSet r c (Value.str (isoDate y m d)))
        | _ => none) r).isSome := by
    intro r hr
    rcases h r hr with ⟨y, m, d, hd⟩
    simp only [hd]
    rfl
  rcases mapM_option_isSome hs with ⟨rs, hrs⟩
  unfold strftimeCol
  rw [hrs]
  exact ⟨_, rfl⟩

/-- C10: after a defect-free validation both date columns hold parsed
datetime values, so the date-to-string reformatting at the top of the
warehouse step cannot fail on a validated batch. -/
theorem validated_dates (df : DataFrame) (h : (validate_data df).1 = []) :
    (∀ c ∈ date_cols, ∀ r ∈ (validate_data df).2.rows,
        ∃ y m d, rowGet r c = some (Value.date y m d)) ∧
    ∃ df3, formatDates (validate_data df).2 = Except.ok df3 := by
  obtain ⟨hmiss, hnum, h1, h2, hsnd⟩ := validate_pass_parts h
  have hShip : ∀ r ∈ (finalDf df).rows, ∃ y m d, rowGet r "ShipDate" = some (Value.date y m d) :=
    to_datetime_col_dates h2
  have hOrder : ∀ r ∈ (finalDf df).rows,
      ∃ y m d, rowGet r "OrderDate" = some (Value.date y m d) := by
    intro r hr
    rcases forall2_mem_right (to_datetime_other_cols h2) r hr with ⟨r1, hr1, hpres⟩
    rcases to_datetime_col_dates h1 r1 hr1 with ⟨y, m, d, hd⟩
    exact ⟨y, m, d, by rw [hpres "OrderDate" (by decide), hd]⟩
  constructor
  · intro c hc
    rw [hsnd]
    have hc2 : c = "OrderDate" ∨ c = "ShipDate" := by simpa [date_cols] using hc
    rcases hc2 with rfl | rfl
    · exact hOrder
    · exact hShip
  · rw [hsnd]
    rcases strftimeCol_some hOrder with ⟨d3, hd3⟩
    have hShip3 : ∀ r ∈ d3.rows, ∃ y m d, rowGet r "ShipDate" = some (Value.date y m d) := by
      intro r hr
      rcases forall2_mem_right (strftimeCol_rows hd3) r hr with ⟨r1, hr1, y, m, d, hda, rfl⟩
      rcases hShip r1 hr1 with ⟨y', m', d', hd'⟩
      exact ⟨y', m', d', by rw [rowGet_rowSet_other (by decide) r1, hd']⟩
    rcases strftimeCol_some hShip3 with ⟨d4, hd4⟩
    refine ⟨d4, ?_⟩
    unfold formatDates
    simp only [hd3, hd4]

/-- Witness for C10 on the concrete valid batch. -/
theorem validated_dates_witness :
    ∃ df3, formatDates (validate_data sampleBatch).2 = Except.ok df3 :=
  (validated_dates sampleBatch (by decide)).2

/-! ## Lemmas about grouping and per-group statistics -/

theorem firstDistinctGo_cons_mem {α : Type} [DecidableEq α] {a : α} {seen rest : List α}
    (h : a ∈ seen) : firstDistinctGo seen (a :: rest) = firstDistinctGo seen rest := by
  simp [firstDistinctGo, h]

theorem firstDistinctGo_cons_not_mem {α : Type} [DecidableEq α] {a : α} {seen rest : List α}
    (h : a ∉ seen) :
    firstDistinctGo seen (a :: rest) = a :: firstDistinctGo (a :: seen) rest := by
  simp [firstDistinctGo, h]

theorem mem_firstDistinctGo {α : Type} [DecidableEq α] {x : α} :
    ∀ {l seen : List α}, x ∈ firstDistinctGo seen l ↔ x ∈ l ∧ x ∉ seen := by
  intro l
  induction l with
  | nil =>
    intro seen
    simp [firstDistinctGo]
  | cons a rest ih =>
    intro seen
    by_cases ha : a ∈ seen
    · rw [firstDistinctGo_cons_mem ha, ih]
      simp only [List.mem_cons]
      constructor
      · rintro ⟨hr, hs⟩
        exact ⟨Or.inr hr, hs⟩
      · rintro ⟨rfl | hr, hs⟩
        · exact absurd ha hs
        · exact ⟨hr, hs⟩
    · rw [firstDistinctGo_cons_not_mem ha]
      simp only [List.mem_cons, ih]
      constructor
      · rintro (rfl | ⟨hr, hs⟩)
        · exact ⟨Or.inl rfl, ha⟩
        · exact ⟨Or.inr hr, fun hx => hs (Or.inr hx)⟩
      · rintro ⟨rfl | hr, hs⟩
        · exact Or.inl rfl
        · by_cases hxa : x = a
          · exact Or.inl hxa
          · exact Or.inr ⟨hr, fun hd => hd.elim hxa hs⟩

theorem nodup_firstDistinctGo {α : Type} [DecidableEq α] :
    ∀ (l seen : List α), (firstDistinctGo seen l).Nodup := by
  intro l
  induction l with
  | nil =>
    intro seen
    simp [firstDistinctGo]
  | cons a rest ih =>
    intro seen
    by_cases ha : a ∈ seen
    · rw [firstDistinctGo_cons_mem ha]
      exact ih seen
    · rw [firstDistinctGo_cons_not_mem ha, List.nodup_cons]
      refine ⟨fun hmem => ?_, ih (a :: seen)⟩
      exact (mem_firstDistinctGo.mp hmem).2 (List.mem_cons_self a seen)

theorem mem_firstDistinct {α : Type} [DecidableEq α] {x : α} {l : List α} :
    x ∈ firstDistinct l ↔ x ∈ l := by
  unfold firstDistinct
  rw [mem_firstDistinctGo]
  simp

theorem nodup_firstDistinct {α : Type} [DecidableEq α] (l : List α) :
    (firstDistinct l).Nodup := nodup_firstDistinctGo l []

theorem forall2_comp {α β γ : Type} {R : α → β → Prop} {Q : β → γ → Prop} :
    ∀ {l : List α} {m : List β} {n : List γ}, List.Forall₂ R l m → List.Forall₂ Q m n →
      List.Forall₂ (fun a c => ∃ b, R a b ∧ Q b c) l n := by
  intro l m n h1
  induction h1 generalizing n with
  | nil =>
    intro h2
    cases h2
    exact List.Forall₂.nil
  | cons hr _ ih =>
    intro h2
    cases h2 with
    | cons hq hqt => exact List.Forall₂.cons ⟨_, hr, hq⟩ (ih hqt)

theorem forall2_ne_nil {α β : Type} {R : α → β → Prop} {l : List α} {l' : List β}
    (h : List.Forall₂ R l l') (hne : l ≠ []) : l' ≠ [] := by
  cases h with
  | nil => exact absurd rfl hne
  | cons _ _ => exact List.cons_ne_nil _ _

theorem forall2_map_eq {α β : Type} {g : β → α} {R : α → β → Prop}
    (hg : ∀ a b, R a b → g b = a) :
    ∀ {l : List α} {l' : List β}, List.Forall₂ R l l' → l'.map g = l := by
  intro l l' h
  induction h with
  | nil => rfl
  | cons hr _ ih => simp [List.map_cons, hg _ _ hr, ih]

theorem foldl_max_init (l : List Rat) : ∀ a : Rat, a ≤ l.foldl max a := by
  induction l with
  | nil => intro a; exact le_refl a
  | cons b l ih =>
    intro a
    exact le_trans (le_max_left a b) (ih (max a b))

theorem foldl_max_ge_mem (l : List Rat) : ∀ (a : Rat), ∀ x ∈ l, x ≤ l.foldl max a := by
  induction l with
  | nil => intro a x hx; cases hx
  | cons b l ih =>
    intro a x hx
    rcases List.mem_cons.mp hx with rfl | hx
    · exact le_trans (le_max_right a x) (foldl_max_init l (max a x))
    · exact ih (max a b) x hx

theorem foldl_max_mem (l : List Rat) : ∀ a : Rat, l.foldl max a = a ∨ l.foldl max a ∈ l := by
  induction l with
  | nil => intro a; exact Or.inl rfl
  | cons b l ih =>
    intro a
    rcases ih (max a b) with h | h
    · rcases max_choice a b with hm | hm
      · exact Or.inl (by rw [List.foldl_cons, h, hm])
      · refine Or.inr ?_
        rw [List.foldl_cons, h, hm]
        exact List.mem_cons_self b l
    · exact Or.inr (List.mem_cons_of_mem b h)

theorem ratMax_mem {l : List Rat} (h : l ≠ []) : ratMax l ∈ l := by
  rcases l with _ | ⟨a, t⟩
  · exact absurd rfl h
  · show List.foldl max a t ∈ a :: t
    rcases foldl_max_mem t a with he | he
    · rw [he]
      exact List.mem_cons_self a t
    · exact List.mem_cons_of_mem a he

theorem ratMax_ge {l : List Rat} : ∀ x ∈ l, x ≤ ratMax l := by
  rcases l with _ | ⟨a, t⟩
  · intro x hx; cases hx
  · intro x hx
    show x ≤ List.foldl max a t
    rcases List.mem_cons.mp hx with rfl | hx
    · exact foldl_max_init t x
    · exact foldl_max_ge_mem t a x hx

theorem numeric_cols_all_numeric {df : DataFrame} (hmiss : missingColsOf df = [])
    (hN : numericDefects df = []) :
    ∀ c ∈ numeric_cols, isNumericCol df c = true := by
  intro c hc
  unfold numericDefects at hN
  rw [List.map_eq_nil_iff, List.filter_eq_nil_iff] at hN
  have hcol : hasCol df c :=
    hasCol_of_no_missing hmiss ((by decide : ∀ x ∈ numeric_cols, x ∈ required_columns) c hc)
  have hc' := hN c hc
  simpa [hcol] using hc'

theorem isNumericCol_rows {df : DataFrame} {c : String} (h : isNumericCol df c = true) :
    ∀ r ∈ df.rows, ∃ q, rowGet r c = some (Value.num q) := by
  unfold isNumericCol at h
  rw [List.all_eq_true] at h
  intro r hr
  have hv' := h r hr
  rcases hv : rowGet r c with _ | v <;> rw [hv] at hv'
  · cases hv'
  · rcases v with s | q | ⟨y, m, d⟩
    · cases hv'
    · exact ⟨q, rfl⟩
    · cases hv'

theorem validated_numeric (df : DataFrame) (h : (validate_data df).1 = []) :
    ∀ r ∈ (validate_data df).2.rows,
      ∀ cc ∈ ["UnitsSold", "TotalRevenue", "TotalCost", "TotalProfit"],
        ∃ q, colRat r cc = some q := by
  obtain ⟨hmiss, hN, h1, h2, hsnd⟩ := validate_pass_parts h
  have hnum := numeric_cols_all_numeric hmiss hN
  have hpres : List.Forall₂ (fun r r2 => ∀ c', c' ≠ "OrderDate" → c' ≠ "ShipDate" →
      rowGet r2 c' = rowGet r c') df.rows (validate_data df).2.rows := by
    rw [hsnd]
    refine (forall2_comp (to_datetime_other_cols h1) (to_datetime_other_cols h2)).imp ?_
    rintro a c ⟨b, hab, hbc⟩ c' hO hS
    rw [hbc c' hS, hab c' hO]
  intro r hr cc hcc
  rcases forall2_mem_right hpres r hr with ⟨r0, hr0, hpr⟩
  have hccn : cc ∈ numeric_cols := by fin_cases hcc <;> decide
  have hOne : cc ≠ "OrderDate" := by fin_cases hcc <;> decide
  have hSne : cc ≠ "ShipDate" := by fin_cases hcc <;> decide
  rcases isNumericCol_rows (hnum cc hccn) r0 hr0 with ⟨q, hq⟩
  refine ⟨q, ?_⟩
  unfold colRat
  rw [hpr cc hOne hSne, hq]
  rfl

theorem aggRow_country {rows : List Row} {c : Option Value} {sr : SummaryRow}
    (h : aggRow rows c = some sr) : sr.country = c := by
  simp only [aggRow] at h
  repeat' split at h
  all_goals (cases h <;> rfl)

theorem aggRow_spec {rows : List Row} (c : Option Value)
    (hnum : ∀ r ∈ rows, ∀ cc ∈ ["UnitsSold", "TotalRevenue", "TotalCost", "TotalProfit"],
      ∃ q, colRat r cc = some q) :
    ∃ us rev cost prof,
      (groupRows rows c).mapM (fun r => colRat r "UnitsSold") = some us ∧
      (groupRows rows c).mapM (fun r => colRat r "TotalRevenue") = some rev ∧
      (groupRows rows c).mapM (fun r => colRat r "TotalCost") = some cost ∧
      (groupRows rows c).mapM (fun r => colRat r "TotalProfit") = some prof ∧
      aggRow rows c = some ⟨c, ratMax us, rev.sum / (rev.length : Rat),
        cost.sum / (cost.length : Rat), prof.sum / (prof.length : Rat)⟩ := by
  have hsub : ∀ r ∈ groupRows rows c, r ∈ rows := fun r hr => List.mem_of_mem_filter hr
  have hget : ∀ (cc : String), cc ∈ ["UnitsSold", "TotalRevenue", "TotalCost", "TotalProfit"] →
      ∀ r ∈ groupRows rows c, ((fun r => colRat r cc) r).isSome := by
    intro cc hcc r hr
    rcases hnum r (hsub r hr) cc hcc with ⟨q, hq⟩
    show (colRat r cc).isSome = true
    rw [hq]
    rfl
  rcases mapM_option_isSome (hget "UnitsSold" (by decide)) with ⟨us, hus⟩
  rcases mapM_option_isSome (hget "TotalRevenue" (by decide)) with ⟨rev, hrev⟩
  rcases mapM_option_isSome (hget "TotalCost" (by decide)) with ⟨cost, hcost⟩
  rcases mapM_option_isSome (hget "TotalProfit" (by decide)) with ⟨prof, hprof⟩
  refine ⟨us, rev, cost, prof, hus, hrev, hcost, hprof, ?_⟩
  simp only [aggRow]
  rw [hus, hrev, hcost, hprof]

theorem aggregate_spec {rows : List Row}
    (hnum : ∀ r ∈ rows, ∀ cc ∈ ["UnitsSold", "TotalRevenue", "TotalCost", "TotalProfit"],
      ∃ q, colRat r cc = some q) :
    ∃ summary, aggregate rows = some summary ∧
      List.Forall₂ (fun c sr => aggRow rows c = some sr)
        (firstDistinct (rows.map countryOf)) summary := by
  have hs : ∀ c ∈ firstDistinct (rows.map countryOf), ((aggRow rows) c).isSome := by
    intro c _
    rcases aggRow_spec c hnum with ⟨us, rev, cost, prof, _, _, _, _, heq⟩
    rw [heq]
    rfl
  rcases mapM_option_isSome hs with ⟨summary, hsum⟩
  exact ⟨summary, by unfold aggregate; exact hsum, mapM_option_forall2 hsum⟩

theorem forall2_map_congr {α β γ : Type} {f : α → γ} {g : β → γ} {R : α → β → Prop}
    (hg : ∀ a b, R a b → g b = f a) :
    ∀ {l : List α} {l' : List β}, List.Forall₂ R l l' → l'.map g = l.map f := by
  intro l l' h
  induction h with
  | nil => rfl
  | cons hr _ ih => simp [List.map_cons, hg _ _ hr, ih]

theorem validated_other_cols (df : DataFrame) (h : (validate_data df).1 = []) :
    List.Forall₂ (fun r r2 => ∀ c', c' ≠ "OrderDate" → c' ≠ "ShipDate" →
      rowGet r2 c' = rowGet r c') df.rows (validate_data df).2.rows := by
  obtain ⟨hmiss, hN, h1, h2, hsnd⟩ := validate_pass_parts h
  rw [hsnd]
  refine (forall2_comp (to_datetime_other_cols h1) (to_datetime_other_cols h2)).imp ?_
  rintro a c ⟨b, hab, hbc⟩ c' hO hS
  rw [hbc c' hS, hab c' hO]

/-- C4: for every validated batch, the summary has exactly one row per
distinct Country value occurring in the batch (and only the batch: it is
computed from the batch's rows alone, with the batch's Country values
unchanged from the input), each row carrying the maximum UnitsSold and
the arithmetic means of TotalRevenue, TotalCost and TotalProfit over that
country's batch rows; grouping uses exact value equality on Country. -/
theorem aggregate_per_country (df : DataFrame) (h : (validate_data df).1 = []) :
    ∃ summary, aggregate (validate_data df).2.rows = some summary ∧
      (summary.map SummaryRow.country).Nodup ∧
      (∀ c, c ∈ summary.map SummaryRow.country ↔
         c ∈ (validate_data df).2.rows.map countryOf) ∧
      ((validate_data df).2.rows.map countryOf = df.rows.map countryOf) ∧
      (∀ sr ∈ summary, ∃ us rev cost prof,
        (groupRows (validate_data df).2.rows sr.country).mapM
            (fun r => colRat r "UnitsSold") = some us ∧
        (groupRows (validate_data df).2.rows sr.country).mapM
            (fun r => colRat r "TotalRevenue") = some rev ∧
        (groupRows (validate_data df).2.rows sr.country).mapM
            (fun r => colRat r "TotalCost") = some cost ∧
        (groupRows (validate_data df).2.rows sr.country).mapM
            (fun r => colRat r "TotalProfit") = some prof ∧
        us ≠ [] ∧ sr.max_units_sold ∈ us ∧ (∀ x ∈ us, x ≤ sr.max_units_sold) ∧
        sr.average_total_revenue = rev.sum / (rev.length : Rat) ∧
        sr.average_total_cost = cost.sum / (cost.length : Rat) ∧
        sr.average_total_profit = prof.sum / (prof.length : Rat)) := by
  have hnum := validated_numeric df h
  rcases aggregate_spec hnum with ⟨summary, hagg, hf⟩
  have hmap : summary.map SummaryRow.country =
      firstDistinct ((validate_data df).2.rows.map countryOf) :=
    forall2_map_eq (fun a b hb => aggRow_country hb) hf
  refine ⟨summary, hagg, ?_, ?_, ?_, ?_⟩
  · rw [hmap]
    exact nodup_firstDistinct _
  · intro c
    rw [hmap, mem_firstDistinct]
  · exact forall2_map_congr
      (fun a b hb => by
        unfold countryOf
        exact hb "Country" (by decide) (by decide))
      (validated_other_cols df h)
  · intro sr hsr
    rcases forall2_mem_right hf sr hsr with ⟨c, hcmem, hsrc⟩
    rcases aggRow_spec c hnum with ⟨us, rev, cost, prof, hus, hrev, hcost, hprof, heq⟩
    rw [hsrc] at heq
    obtain rfl : sr = ⟨c, ratMax us, rev.sum / (rev.length : Rat),
        cost.sum / (cost.length : Rat), prof.sum / (prof.length : Rat)⟩ := Option.some.inj heq
    have hgne : groupRows (validate_data df).2.rows c ≠ [] := by
      rcases List.mem_map.mp (mem_firstDistinct.mp hcmem) with ⟨r, hr, hcr⟩
      exact List.ne_nil_of_mem (List.mem_filter.mpr ⟨hr, by simp [hcr]⟩)
    have husne : us ≠ [] := forall2_ne_nil (mapM_option_forall2 hus) hgne
    exact ⟨us, rev, cost, prof, hus, hrev, hcost, hprof, husne, ratMax_mem husne,
      ratMax_ge, rfl, rfl, rfl⟩

/-- Witness for C4: the aggregation of the concrete valid batch is
defined. -/
theorem aggregate_per_country_witness :
    ∃ summary, aggregate (validate_data sampleBatch).2.rows = some summary :=
  (aggregate_per_country sampleBatch (by decide)).elim (fun s hs => ⟨s, hs.1⟩)

/-! ## Controller outcomes -/

/-- C7: a batch with validation defects is routed to quarantine and the
handler returns the structured failure carrying the defect list; no
archival or warehouse call is attempted, and the returned outcome does not
depend on whether the quarantine relocation itself succeeds. -/
theorem handler_validation_failure (env : Env) (bk : String × String) (s : String)
    (df : DataFrame) (he : env.event = some bk) (hs : env.secretsRes = Except.ok s)
    (hr : env.readRes = Except.ok df) (hv : (validate_data df).1 ≠ []) :
    lambda_handler env =
      Except.ok (HandlerResult.failedReason (validate_data df).1,
        [Eff.s3Read, Eff.quarantineAttempt]) ∧
    (∀ q, lambda_handler
        ⟨env.event, env.secretsRes, env.readRes, q, env.parquetRes, env.existingTgt,
         env.rawAppendRes, env.tgtReplaceRes, env.summaryReplaceRes, env.deleteRes⟩ =
      lambda_handler env) := by
  have hmain : ∀ env' : Env, env'.event = some bk → env'.secretsRes = Except.ok s →
      env'.readRes = Except.ok df →
      lambda_handler env' = Except.ok (HandlerResult.failedReason (validate_data df).1,
        [Eff.s3Read, Eff.quarantineAttempt]) := by
    intro env' he' hs' hr'
    unfold lambda_handler
    rw [he', hs', hr']
    simp [move_to_quarantine, hv]
  refine ⟨hmain env he hs hr, fun q => ?_⟩
  rw [hmain env he hs hr, hmain ⟨env.event, env.secretsRes, env.readRes, q, env.parquetRes,
    env.existingTgt, env.rawAppendRes, env.tgtReplaceRes, env.summaryReplaceRes,
    env.deleteRes⟩ he hs hr]

/-- Witness for C7: an invalid batch with a failing quarantine relocation
still returns the validation failure and attempts no warehouse call. -/
theorem handler_validation_failure_witness :
    lambda_handler ⟨some ("b", "k"), Except.ok "s", Except.ok ⟨["uuid"], []⟩,
        Except.error "quarantine down", Except.ok (), none, Except.ok (), Except.ok (),
        Except.ok (), Except.ok ()⟩ =
      Except.ok (HandlerResult.failedReason (validate_data ⟨["uuid"], []⟩).1,
        [Eff.s3Read, Eff.quarantineAttempt]) :=
  (handler_validation_failure _ ("b", "k") "s" _ rfl rfl rfl (by decide)).1

theorem update_rds_effs_subset (env : Env) (df : DataFrame) :
    ∀ e ∈ (update_rds_tables env df).1,
      e = Eff.rdsRawAppend ∨ e = Eff.rdsTgtReplace ∨ e = Eff.rdsSummaryReplace := by
  intro e he
  unfold update_rds_tables at he
  repeat' split at he
  all_goals (simp_all; try tauto)

/-- C8: an exception raised by the read, archival, or warehouse-merge step
is caught once at the top level: the handler sends one failure
notification and returns a structured failure; later steps are not
attempted, the batch is not quarantined, and the raw input is not
deleted. -/
theorem handler_inflight_exception (env : Env) (bk : String × String) (s : String)
    (he : env.event = some bk) (hs : env.secretsRes = Except.ok s) :
    (∀ e, env.readRes = Except.error e →
       lambda_handler env = Except.ok
         (HandlerResult.failedError ("Error reading file from S3: " ++ e),
          [Eff.s3Read, Eff.snsPublishFailure])) ∧
    (∀ df e, env.readRes = Except.ok df → (validate_data df).1 = [] →
       env.parquetRes = Except.error e →
       lambda_handler env = Except.ok
         (HandlerResult.failedError ("Parquet conversion failed: " ++ e),
          [Eff.s3Read, Eff.parquetPut, Eff.snsPublishFailure])) ∧
    (∀ df e effs, env.readRes = Except.ok df → (validate_data df).1 = [] →
       env.parquetRes = Except.ok () →
       update_rds_tables env (validate_data df).2 = (effs, Except.error e) →
       lambda_handler env = Except.ok (HandlerResult.failedError e,
         [Eff.s3Read, Eff.parquetPut] ++ effs ++ [Eff.snsPublishFailure]) ∧
       effs.count Eff.snsPublishFailure = 0 ∧ Eff.quarantineAttempt ∉ effs ∧
       Eff.deleteRaw ∉ effs ∧ Eff.snsPublishSuccess ∉ effs) := by
  refine ⟨?_, ?_, ?_⟩
  · intro e hread
    unfold lambda_handler
    rw [he, hs, hread]
  · intro df e hread hval hpq
    unfold lambda_handler
    rw [he, hs, hread]
    simp [hval, hpq]
  · intro df e effs hread hval hpq hrds
    have hsub := update_rds_effs_subset env (validate_data df).2
    rw [hrds] at hsub
    simp only [] at hsub
    refine ⟨?_, ?_, ?_, ?_, ?_⟩
    · unfold lambda_handler
      rw [he, hs, hread]
      simp [hval, hpq, hrds]
    · rw [List.count_eq_zero]
      intro hmem
      rcases hsub _ hmem with hx | hx | hx <;> cases hx
    · intro hmem
      rcases hsub _ hmem with hx | hx | hx <;> cases hx
    · intro hmem
      rcases hsub _ hmem with hx | hx | hx <;> cases hx
    · intro hmem
      rcases hsub _ hmem with hx | hx | hx <;> cases hx

/-- Witness for C8: a failing S3 read is caught once, notified, and
returned as a structured failure. -/
theorem handler_inflight_exception_witness :
    lambda_handler ⟨some ("b", "k"), Except.ok "s", Except.error "socket closed",
        Except.ok (), Except.ok (), none, Except.ok (), Except.ok (), Except.ok (),
        Except.ok ()⟩ =
      Except.ok (HandlerResult.failedError ("Error reading file from S3: " ++ "socket closed"),
        [Eff.s3Read, Eff.snsPublishFailure]) :=
  (handler_inflight_exception _ ("b", "k") "s" rfl rfl).1 "socket closed" rfl

/-! ## The raw-log append of `update_rds_tables` -/

theorem formatDates_inv {df df2 : DataFrame} (h : formatDates df = Except.ok df2) :
    ∃ d1, strftimeCol df "OrderDate" = some d1 ∧ strftimeCol d1 "ShipDate" = some df2 := by
  unfold formatDates at h
  split at h
  · cases h
  · rename_i d1 h1
    split at h
    · cases h
    · rename_i d4 h2
      cases h
      exact ⟨d1, h1, h2⟩

theorem update_rds_ok {env : Env} {df df2 : DataFrame} {summary : List SummaryRow}
    (hfmt : formatDates df = Except.ok df2)
    (hra : env.rawAppendRes = Except.ok ()) (htr : env.tgtReplaceRes = Except.ok ())
    (hsr : env.summaryReplaceRes = Except.ok ())
    (hagg : aggregate df2.rows = some summary) :
    update_rds_tables env df =
      ([Eff.rdsRawAppend, Eff.rdsTgtReplace, Eff.rdsSummaryReplace],
       Except.ok ⟨df2.rows, reconcile env.existingTgt df2.rows, summary⟩) := by
  unfold update_rds_tables
  simp only [hfmt, hra, htr, hagg, hsr]

theorem update_rds_ok_inv {env : Env} {df : DataFrame} {effs : List Eff} {out : RdsOutcome}
    (h : update_rds_tables env df = (effs, Except.ok out)) :
    ∃ df2, formatDates df = Except.ok df2 ∧ out.rawAppended = df2.rows := by
  unfold update_rds_tables at h
  split at h
  · injection h with h1 h2
    cases h2
  · rename_i df2 hfmt
    split at h
    · injection h with h1 h2
      cases h2
    · split at h
      · injection h with h1 h2
        cases h2
      · split at h
        · injection h with h1 h2
          cases h2
        · split at h
          · injection h with h1 h2
            cases h2
          · injection h with h1 h2
            injection h2 with h3
            exact ⟨df2, hfmt, by rw [← h3]⟩

theorem strftime2_rows {df df2 : DataFrame} (h : formatDates df = Except.ok df2) :
    List.Forall₂ (fun b a =>
      (∀ c, c ≠ "OrderDate" → c ≠ "ShipDate" → rowGet a c = rowGet b c) ∧
      (∀ y mo dy, rowGet b "OrderDate" = some (Value.date y mo dy) →
         rowGet a "OrderDate" = some (Value.str (isoDate y mo dy))) ∧
      (∀ y mo dy, rowGet b "ShipDate" = some (Value.date y mo dy) →
         rowGet a "ShipDate" = some (Value.str (isoDate y mo dy)))) df.rows df2.rows := by
  rcases formatDates_inv h with ⟨d1, h1, h2⟩
  refine (forall2_comp (strftimeCol_rows h1) (strftimeCol_rows h2)).imp ?_
  rintro b a ⟨mid, ⟨y1, m1, d1v, hb1, rfl⟩, ⟨y2, m2, d2v, hm2, rfl⟩⟩
  refine ⟨?_, ?_, ?_⟩
  · intro c hO hS
    rw [rowGet_rowSet_other hS, rowGet_rowSet_other hO]
  · intro y mo dy hbO
    rw [hb1] at hbO
    injection hbO with hbO'
    injection hbO' with e1 e2 e3
    subst e1
    subst e2
    subst e3
    rw [rowGet_rowSet_other (by decide), rowGet_rowSet_self hb1]
  · intro y mo dy hbS
    have hms : rowGet (rowSet b "OrderDate" (Value.str (isoDate y1 m1 d1v))) "ShipDate" =
        rowGet b "ShipDate" := rowGet_rowSet_other (by decide) b
    have hm2' := hm2
    rw [hms, hbS] at hm2'
    injection hm2' with hm2''
    injection hm2'' with e1 e2 e3
    subst e1
    subst e2
    subst e3
    rw [rowGet_rowSet_self hm2]

theorem sample_update_exists :
    ∃ summary, update_rds_tables envAllOk (validate_data sampleBatch).2 =
      ([Eff.rdsRawAppend, Eff.rdsTgtReplace, Eff.rdsSummaryReplace],
       Except.ok ⟨df3L.rows, reconcile envAllOk.existingTgt df3L.rows, summary⟩) := by
  have hnum : ∀ r ∈ df3L.rows, ∀ cc ∈ ["UnitsSold", "TotalRevenue", "TotalCost", "TotalProfit"],
      ∃ q, colRat r cc = some q := by
    intro r hr cc hcc
    have hss : (colRat r cc).isSome = true := by
      fin_cases hr <;> fin_cases hcc <;> decide
    rcases Option.isSome_iff_exists.mp hss with ⟨q, hq⟩
    exact ⟨q, hq⟩
  rcases aggregate_spec hnum with ⟨summary, hagg, _⟩
  exact ⟨summary, update_rds_ok rfl rfl rfl rfl hagg⟩

/-- C9 is false as stated: for the concrete valid batch the rows appended
to the raw log differ from the validated batch's records — the two date
fields were reformatted before the append. -/
theorem raw_log_counterexample :
    ∃ out, (update_rds_tables envAllOk (validate_data sampleBatch).2).2 = Except.ok out ∧
      out.rawAppended ≠ (validate_data sampleBatch).2.rows := by
  rcases sample_update_exists with ⟨summary, hupd⟩
  refine ⟨_, by rw [hupd], ?_⟩
  show df3L.rows ≠ (validate_data sampleBatch).2.rows
  decide

/-- C9 amended: each appended raw-log row corresponds to one batch row,
in order, every row appended and none deduplicated; all fields except the
two date fields are unchanged, and each date field is reformatted from
its parsed datetime to its ISO date string. -/
theorem raw_log_append_amended (env : Env) (df : DataFrame) (effs : List Eff)
    (out : RdsOutcome) (h : update_rds_tables env df = (effs, Except.ok out)) :
    List.Forall₂ (fun b a =>
      (∀ c, c ≠ "OrderDate" → c ≠ "ShipDate" → rowGet a c = rowGet b c) ∧
      (∀ y mo dy, rowGet b "OrderDate" = some (Value.date y mo dy) →
         rowGet a "OrderDate" = some (Value.str (isoDate y mo dy))) ∧
      (∀ y mo dy, rowGet b "ShipDate" = some (Value.date y mo dy) →
         rowGet a "ShipDate" = some (Value.str (isoDate y mo dy)))) df.rows out.rawAppended := by
  rcases update_rds_ok_inv h with ⟨df2, hfmt, hrows⟩
  rw [hrows]
  exact strftime2_rows hfmt

/-- Witness for the amended C9 on the concrete batch with all
collaborators succeeding. -/
theorem raw_log_append_amended_witness :
    ∃ effs out, update_rds_tables envAllOk (validate_data sampleBatch).2 =
        (effs, Except.ok out) ∧
      List.Forall₂ (fun b a =>
        (∀ c, c ≠ "OrderDate" → c ≠ "ShipDate" → rowGet a c = rowGet b c) ∧
        (∀ y mo dy, rowGet b "OrderDate" = some (Value.date y mo dy) →
           rowGet a "OrderDate" = some (Value.str (isoDate y mo dy))) ∧
        (∀ y mo dy, rowGet b "ShipDate" = some (Value.date y mo dy) →
           rowGet a "ShipDate" = some (Value.str (isoDate y mo dy))))
        (validate_data sampleBatch).2.rows out.rawAppended := by
  rcases sample_update_exists with ⟨summary, hupd⟩
  exact ⟨_, _, hupd, raw_log_append_amended _ _ _ _ hupd⟩
